import Mathlib

/-!
Verification of the token-input layer of the chumsky parser-combinator
library (`src/input.rs`): the `Input` implementations for `&str`, `&[T]`
and `&[T; N]`, the `SpannedInput` wrapper, and the parse cursor
`InputRef` with its marker/rewind, scoped-context, scoped-source,
error-accumulation and skipping operations.

A `&str` source is embedded as a `List Char` addressed by UTF-8 byte
offsets; a `&[T]` or `&[T; N]` source is embedded as a `List T`
addressed by element index.  Offsets and byte lengths are `Nat`.
-/

namespace Chumsky

/-- Total UTF-8 byte length of a character list; embeds `str::len` for
the string whose characters are `s`. -/
def byteLen (s : List Char) : Nat := (s.map Char.utf8Size).sum

/-- Helper for `strNext`: scan the character list, tracking the byte
position `pos` at which the head character starts; when `pos` hits the
requested offset, decode that character and advance the offset by its
UTF-8 size.  Falling off the end returns the offset unchanged with no
token, which is the `offset >= self.len()` branch of the source. -/
def strNextAbs : List Char → Nat → Nat → Nat × Option Char
  | [], _, off => (off, none)
  | c :: rest, pos, off =>
    if pos = off then (off + c.utf8Size, some c)
    else strNextAbs rest (pos + c.utf8Size) off

/-- Embeds `<&str as Input>::next` (src/input.rs:122-134): if the byte
offset is in bounds, decode the character starting there and return the
offset advanced past it together with the character; otherwise return
the same offset and no token. -/
def strNext (s : List Char) (off : Nat) : Nat × Option Char := strNextAbs s 0 off

/-- Embeds `<&str as Input>::prev` (src/input.rs:141-143):
`offs.saturating_sub(1)`, which is truncated subtraction on `Nat`. -/
def strPrev (off : Nat) : Nat := off - 1

/-- Modelled from the spec: `SimpleSpan` (defined in `span.rs`, which is
not part of the sources given) is the span type of the built-in sources,
holding the start and end offsets of a range; `range.into()` carries the
two offsets over unchanged.  `stop` stands for the source's `end`
field. -/
structure SimpleSpan where
  start : Nat
  stop : Nat
deriving DecidableEq, Repr

/-- Embeds `<&str as Input>::span` (src/input.rs:137-139):
`range.into()`, i.e. the span holding exactly the two offsets.  The
`&[T]` and `&[T; N]` implementations are textually identical. -/
def strSpan (a b : Nat) : SimpleSpan := ⟨a, b⟩

/-- Helper for `strSlice`: keep the characters whose starting byte
position lies in `[a, b)`, scanning with the absolute byte position of
the head character. -/
def strSliceAbs : List Char → Nat → Nat → Nat → List Char
  | [], _, _, _ => []
  | c :: rest, pos, a, b =>
    if pos < a then strSliceAbs rest (pos + c.utf8Size) a b
    else if pos < b then c :: strSliceAbs rest (pos + c.utf8Size) a b
    else []

/-- Embeds `<&str as SliceInput>::slice` (src/input.rs:152-154):
`&self[a..b]`, the substring between byte offsets `a` and `b`, as the
list of characters whose byte extent lies inside the range (for
boundary offsets this is exactly the Rust byte slice). -/
def strSlice (s : List Char) (a b : Nat) : List Char := strSliceAbs s 0 a b

/-- The substring of `s` covered by a span: the slice between the span's
start and end offsets.  Used to state the span/slice round-trip. -/
def coveredSub (s : List Char) (sp : SimpleSpan) : List Char :=
  strSlice s sp.start sp.stop

/-- Embeds `<&[T] as BorrowInput>::next_ref` (src/input.rs:204-210) and,
because `<&[T] as Input>::next` is `next_ref` followed by `cloned`, also
`next` for `&[T]` and `&[T; N]`: if the index is in bounds return the
element there and the index plus one, otherwise the same index and no
token. -/
def sliceNext (l : List T) (off : Nat) : Nat × Option T :=
  match l[off]? with
  | some t => (off + 1, some t)
  | none => (off, none)

/-- Offsets of a `&str` source reachable from `start()` by repeated
`next`, the only offsets the `Input` contract declares valid
(src/input.rs:29). -/
inductive StrReachable (s : List Char) : Nat → Prop where
  | start : StrReachable s 0
  | step {off : Nat} : StrReachable s off → StrReachable s (strNext s off).1

/-- Offsets of a `&[T]`/`&[T; N]` source reachable from `start()` by
repeated `next`/`next_ref`. -/
inductive SliceReachable (l : List T) : Nat → Prop where
  | start : SliceReachable l 0
  | step {off : Nat} : SliceReachable l off → SliceReachable l (sliceNext l off).1

/-- A token source satisfying the `Input` contract (src/input.rs:16-41),
as a record of its `start`, `next` and `prev` operations; the source is
stateless, so each operation is a pure function of the offset. -/
structure InputModel (Off Tok : Type) where
  start : Off
  next : Off → Off × Option Tok
  prev : Off → Off

/-- The `InputModel` of a `&str` source with characters `s`. -/
def strInputModel (s : List Char) : InputModel Nat Char :=
  { start := 0, next := strNext s, prev := strPrev }

/-- The `InputModel` of a `&[T]`/`&[T; N]` source with elements `l`. -/
def sliceInputModel (l : List T) : InputModel Nat T :=
  { start := 0, next := sliceNext l, prev := fun o => o - 1 }

/-- Modelled from the spec: `Located<E>` (defined in `error.rs`, which
is not part of the sources given) pairs an error with the input offset
at which it occurred, so that alternative failures can be compared by
how far they progressed. -/
structure Located (E : Type) where
  pos : Nat
  err : E
deriving DecidableEq, Repr

/-- Modelled from the spec: `Located::prioritize` (from `error.rs`)
compares two located errors by the priority/progress criterion — the
one at the furthest offset wins — and on a tie combines their contents
with the error type's merge operation. -/
def Located.prioritize (a b : Located E) (mrg : E → E → E) : Located E :=
  if a.pos < b.pos then b
  else if b.pos < a.pos then a
  else ⟨a.pos, mrg a.err b.err⟩

/-- Embeds `Errors<E>` (src/input.rs:416-419): at most one exploratory
"alt" failure plus the ordered list of committed secondary errors. -/
structure Errors (E : Type) where
  alt : Option (Located E)
  secondary : List E
deriving DecidableEq, Repr

/-- Embeds `Errors::default` (src/input.rs:421-428). -/
def Errors.default : Errors E := ⟨none, []⟩

/-- Embeds `Marker` (src/input.rs:404-407): the current offset plus the
number of secondary errors recorded when the marker was taken. -/
structure Marker (Off : Type) where
  offset : Off
  err_count : Nat

/-- Embeds `InputRef` (src/input.rs:431-441): the source, the current
offset, the error accumulator, the caller's long-lived state and the
optional scoped context.  The mutable `&mut E::State` borrow becomes a
value threaded through every operation; the memoization cache is behind
a disabled feature flag and is omitted. -/
structure InputRef (Off Tok E St Ctx : Type) where
  input : InputModel Off Tok
  offset : Off
  errors : Errors E
  state : St
  ctx : Option Ctx

/-- Embeds `InputRef::save` (src/input.rs:518-523). -/
def InputRef.save (st : InputRef Off Tok E St Ctx) : Marker Off :=
  ⟨st.offset, st.errors.secondary.length⟩

/-- Embeds `InputRef::rewind` (src/input.rs:527-530): truncate the
secondary list to the marker's count and restore the marker's offset;
the alt slot is not touched. -/
def InputRef.rewind (st : InputRef Off Tok E St Ctx) (m : Marker Off) :
    InputRef Off Tok E St Ctx :=
  { st with
    errors.secondary := st.errors.secondary.take m.err_count
    offset := m.offset }

/-- Embeds `InputRef::emit` (src/input.rs:636-638): push onto the
secondary list. -/
def InputRef.emit (st : InputRef Off Tok E St Ctx) (e : E) :
    InputRef Off Tok E St Ctx :=
  { st with errors.secondary := st.errors.secondary ++ [e] }

/-- Embeds `InputRef::add_alt` (src/input.rs:641-646): when both the
slot and the candidate are present, keep `a.prioritize(b, merge)`;
otherwise keep whichever is present.  `mrg` is the error type's `merge`
operation, supplied by the `Error` trait collaborator. -/
def InputRef.add_alt (mrg : E → E → E) (st : InputRef Off Tok E St Ctx)
    (error : Option (Located E)) : InputRef Off Tok E St Ctx :=
  { st with errors.alt :=
      match st.errors.alt, error with
      | some a, some b => some (a.prioritize b mrg)
      | a, b => a.or b }

/-- Embeds `InputRef::next` (src/input.rs:558-563): read the source at
the current offset and store the returned offset. -/
def InputRef.advance (st : InputRef Off Tok E St Ctx) :
    InputRef Off Tok E St Ctx :=
  { st with offset := (st.input.next st.offset).1 }

/-- Embeds `InputRef::with_ctx` (src/input.rs:459-483): the nested
cursor shares the parent's source and state, carries the new context,
and takes over the parent's error accumulator (`mem::replace` leaves
the parent a default one for the duration); when the body returns, the
nested cursor's offset and accumulator are installed in the parent and
the parent's own context is untouched.  State sharing through the
`&mut` borrow becomes copying the nested cursor's final state back. -/
def InputRef.with_ctx (st : InputRef Off Tok E St Ctx) (new_ctx : C)
    (f : InputRef Off Tok E St C → InputRef Off Tok E St C × O) :
    InputRef Off Tok E St Ctx × O :=
  let new_inp : InputRef Off Tok E St C :=
    { input := st.input, offset := st.offset, state := st.state
      ctx := some new_ctx, errors := st.errors }
  let r := f new_inp
  ({ st with offset := r.1.offset, errors := r.1.errors, state := r.1.state }, r.2)

/-- Embeds `InputRef::with_input` (src/input.rs:485-508): the nested
cursor starts at the new source's `start()`, takes the parent's context
(`self.ctx.take()` leaves the parent's slot empty for the duration, a
transient state no caller can observe while the parent is mutably
borrowed) and the parent's error accumulator; when the body returns,
the accumulator and the context come back to the parent while the
parent's offset and source are untouched. -/
def InputRef.with_input (st : InputRef Off Tok E St Ctx)
    (new_input : InputModel Off Tok)
    (f : InputRef Off Tok E St Ctx → InputRef Off Tok E St Ctx × O) :
    InputRef Off Tok E St Ctx × O :=
  let new_inp : InputRef Off Tok E St Ctx :=
    { input := new_input, offset := new_input.start, state := st.state
      ctx := st.ctx, errors := st.errors }
  let r := f new_inp
  ({ st with errors := r.1.errors, ctx := r.1.ctx, state := r.1.state }, r.2)

/-- A successful `strNext` strictly advances the offset and stays within
the byte length of the source (measured from the scan position). -/
theorem strNextAbs_some_bounds :
    ∀ (s : List Char) (pos off off' : Nat) (c : Char),
      strNextAbs s pos off = (off', some c) →
      off < off' ∧ off' ≤ pos + byteLen s := by
  intro s
  induction s with
  | nil => intro pos off off' c h; simp [strNextAbs] at h
  | cons d rest ih =>
    intro pos off off' c h
    by_cases hp : pos = off
    · simp [strNextAbs, hp] at h
      have hpos : 0 < d.utf8Size := Char.utf8Size_pos d
      constructor
      · omega
      · simp [byteLen] at h ⊢
        omega
    · simp [strNextAbs, hp] at h
      have := ih (pos + d.utf8Size) off off' c h
      simp [byteLen] at this ⊢
      omega

/-- Specialization of `strNextAbs_some_bounds` to `strNext`. -/
theorem strNext_some_bounds {s : List Char} {off off' : Nat} {c : Char}
    (h : strNext s off = (off', some c)) : off < off' ∧ off' ≤ byteLen s := by
  have := strNextAbs_some_bounds s 0 off off' c h
  omega

/-- A successful `sliceNext` advances the index by one and stays within
the length of the source. -/
theorem sliceNext_some_bounds {l : List T} {off off' : Nat} {t : T}
    (h : sliceNext l off = (off', some t)) : off < off' ∧ off' ≤ l.length := by
  unfold sliceNext at h
  cases hget : l[off]? with
  | none => rw [hget] at h; simp at h
  | some u =>
    rw [hget] at h
    simp at h
    have : off < l.length := by
      by_contra hc
      rw [List.getElem?_eq_none (by omega)] at hget
      cases hget
    omega

/-- Embeds the loop of `InputRef::skip_while` (src/input.rs:543-555) for
a `&str` source: repeatedly read the next token and, while it exists and
satisfies the predicate, continue from the returned offset; stop at the
offset of the first token that fails the predicate or at end of input.
Totality of this definition is the termination of the loop, guaranteed
because a successful `next` strictly increases the offset within the
byte length of the source. -/
def strSkipWhile (s : List Char) (p : Char → Bool) (off : Nat) : Nat :=
  match h : strNext s off with
  | (off', some c) =>
    if p c then strSkipWhile s p off' else off
  | (_, none) => off
termination_by byteLen s - off
decreasing_by
  have := strNext_some_bounds h
  omega

/-- Embeds the loop of `InputRef::skip_while` for a `&[T]`/`&[T; N]`
source, with the same structure as `strSkipWhile`. -/
def sliceSkipWhile (l : List T) (p : T → Bool) (off : Nat) : Nat :=
  match h : sliceNext l off with
  | (off', some t) =>
    if p t then sliceSkipWhile l p off' else off
  | (_, none) => off
termination_by l.length - off
decreasing_by
  have := sliceNext_some_bounds h
  omega

/-- Embeds `InputRef::skip_while` (src/input.rs:543-555) over a `&str`
source: the method runs the loop on a local offset and finally writes
the resulting offset back into the cursor, leaving every other field
alone. -/
def InputRef.skip_while_str (s : List Char) (p : Char → Bool)
    (st : InputRef Nat Char E St Ctx) : InputRef Nat Char E St Ctx :=
  { st with offset := strSkipWhile s p st.offset }

/-- Embeds `InputRef::skip_while` over a `&[T]`/`&[T; N]` source. -/
def InputRef.skip_while_slice (l : List T) (p : T → Bool)
    (st : InputRef Nat T E St Ctx) : InputRef Nat T E St Ctx :=
  { st with offset := sliceSkipWhile l p st.offset }

/-- The offsets reachable from `off` by consuming tokens that satisfy
`p`, on a `&str` source: the relation traced by the `skip_while` loop. -/
inductive StrSkipReach (s : List Char) (p : Char → Bool) : Nat → Nat → Prop where
  | refl {off : Nat} : StrSkipReach s p off off
  | step {off off' : Nat} {c : Char} :
      (strNext s off).2 = some c → p c = true →
      StrSkipReach s p (strNext s off).1 off' → StrSkipReach s p off off'

/-- The offsets reachable from `off` by consuming tokens that satisfy
`p`, on a `&[T]`/`&[T; N]` source. -/
inductive SliceSkipReach (l : List T) (p : T → Bool) : Nat → Nat → Prop where
  | refl {off : Nat} : SliceSkipReach l p off off
  | step {off off' : Nat} {t : T} :
      (sliceNext l off).2 = some t → p t = true →
      SliceSkipReach l p (sliceNext l off).1 off' → SliceSkipReach l p off off'

/-- A sequence of cursor operations, every one of them short of
`with_input`: advancing, committing a secondary error, merging an alt
candidate, rewinding to a marker, and running a bracketed body under
`with_ctx`.  Read-only operations (`save`, `peek`, `slice`,
`span_since`) do not change the cursor and need no constructor;
`skip_while` is a chain of `advance`s. -/
inductive Op (Off Tok E Ctx : Type) : Type where
  | nop : Op Off Tok E Ctx
  | seq (a b : Op Off Tok E Ctx) : Op Off Tok E Ctx
  | advance : Op Off Tok E Ctx
  | emit (e : E) : Op Off Tok E Ctx
  | addAlt (c : Option (Located E)) : Op Off Tok E Ctx
  | rewind (m : Marker Off) : Op Off Tok E Ctx
  | scopedCtx (c : Ctx) (body : Op Off Tok E Ctx) : Op Off Tok E Ctx

/-- Run a sequence of cursor operations against an `InputRef`, each
constructor by the corresponding source operation; `scopedCtx` runs its
body through `InputRef.with_ctx` itself. -/
def runOp (mrg : E → E → E) :
    Op Off Tok E Ctx → InputRef Off Tok E St Ctx → InputRef Off Tok E St Ctx
  | .nop, st => st
  | .seq a b, st => runOp mrg b (runOp mrg a st)
  | .advance, st => st.advance
  | .emit e, st => st.emit e
  | .addAlt c, st => st.add_alt mrg c
  | .rewind m, st => st.rewind m
  | .scopedCtx c body, st =>
    (st.with_ctx c (fun x => (runOp mrg body x, ()))).1

/-- Every marker rewound to inside the operation sequence records at
least `n` secondary errors: the property of every marker obtainable by
`save` once `n` errors have been committed, since the secondary count
never drops below the count of any marker still in scope. -/
def markersOK (n : Nat) : Op Off Tok E Ctx → Prop
  | .seq a b => markersOK n a ∧ markersOK n b
  | .rewind m => n ≤ m.err_count
  | .scopedCtx _ body => markersOK n body
  | _ => True

/-- Modelled from the spec: the `Span` capability contract (`span.rs`,
not part of the sources given) as consumed by `SpannedInput`:
construction from a context and an offset range, accessors for the
start and end edges, and the context accessor.  `stop` stands for the
trait's `end` accessor. -/
structure SpanOps (S Ctx Off : Type) where
  new : Ctx → Off → Off → S
  start : S → Off
  stop : S → Off
  context : S → Ctx

/-- Embeds `SpannedInput` (src/input.rs:266-270): an inner source of
(token, span) pairs plus the caller-supplied end-of-input span. -/
structure SpannedInput (T S Off : Type) where
  input : InputModel Off (T × S)
  eoi : S

/-- Embeds `<SpannedInput as Input>::next` (src/input.rs:286-289): read
the inner source and keep only the token of the pair. -/
def SpannedInput.next (si : SpannedInput T S Off) (off : Off) :
    Off × Option T :=
  let r := si.input.next off
  (r.1, r.2.map Prod.fst)

/-- Embeds `<SpannedInput as Input>::span` (src/input.rs:291-303): the
start edge comes from the span of the token at the range's start (or
the end-of-input span's start edge), the end edge from the span of the
token at `prev` of the range's end (or the end-of-input span's start
edge), recombined under the end-of-input span's context. -/
def SpannedInput.span (ops : SpanOps S Ctx Off) (si : SpannedInput T S Off)
    (a b : Off) : S :=
  let start :=
    match (si.input.next a).2 with
    | some ts => ops.start ts.2
    | none => ops.start si.eoi
  let stop :=
    match (si.input.next (si.input.prev b)).2 with
    | some ts => ops.stop ts.2
    | none => ops.start si.eoi
  ops.new (ops.context si.eoi) start stop

/-- The span computation as the specification words it: look up the
span of the token at the range's start offset and take its start edge,
look up the span of the token immediately before the range's end offset
and take its end edge, and fall back to the caller-supplied end-of-input
span (its start edge, the accessor the spec designates for end-of-input
extension) whenever the lookup finds no token. -/
def SpannedInput.spanSpec (ops : SpanOps S Ctx Off) (si : SpannedInput T S Off)
    (a b : Off) : S :=
  let spanAtStart : Option S := ((si.input.next a).2).map Prod.snd
  let spanBeforeEnd : Option S := ((si.input.next (si.input.prev b)).2).map Prod.snd
  ops.new (ops.context si.eoi)
    (match spanAtStart with
     | some sp => ops.start sp
     | none => ops.start si.eoi)
    (match spanBeforeEnd with
     | some sp => ops.stop sp
     | none => ops.start si.eoi)

/-- Helper for offset monotonicity: `strNextAbs` never moves the offset
backwards, whatever the scan position. -/
theorem strNextAbs_ge : ∀ (s : List Char) (pos off : Nat),
    off ≤ (strNextAbs s pos off).1 := by
  intro s
  induction s with
  | nil => intro pos off; simp [strNextAbs]
  | cons c rest ih =>
    intro pos off
    by_cases hp : pos = off
    · simp [strNextAbs, hp]
    · simpa [strNextAbs, hp] using ih (pos + c.utf8Size) off

/-- Helper for end-of-input idempotence: when `strNextAbs` yields no
token it returns the offset unchanged. -/
theorem strNextAbs_none_eq : ∀ (s : List Char) (pos off : Nat),
    (strNextAbs s pos off).2 = none → (strNextAbs s pos off).1 = off := by
  intro s
  induction s with
  | nil => intro pos off _; simp [strNextAbs]
  | cons c rest ih =>
    intro pos off h
    by_cases hp : pos = off
    · simp [strNextAbs, hp] at h
    · simp only [strNextAbs, if_neg hp] at h ⊢
      exact ih (pos + c.utf8Size) off h

/-- Restatement of `strNextAbs_ge` in terms of `strNext`. -/
theorem strNext_ge (s : List Char) (off : Nat) : off ≤ (strNext s off).1 :=
  strNextAbs_ge s 0 off

/-- Restatement of `strNextAbs_none_eq` in terms of `strNext`. -/
theorem strNext_none_eq (s : List Char) (off : Nat)
    (h : (strNext s off).2 = none) : (strNext s off).1 = off :=
  strNextAbs_none_eq s 0 off h

/-- When `strNext` yields no token, the whole result is the input offset
with no token. -/
theorem strNext_none (s : List Char) (off : Nat)
    (h : (strNext s off).2 = none) : strNext s off = (off, none) := by
  have h1 := strNext_none_eq s off h
  have h2 : strNext s off = ((strNext s off).1, (strNext s off).2) := rfl
  rw [h2, h1, h]

/-- When `sliceNext` yields no token, the whole result is the input
offset with no token. -/
theorem sliceNext_none (l : List T) (off : Nat)
    (h : (sliceNext l off).2 = none) : sliceNext l off = (off, none) := by
  unfold sliceNext at h ⊢
  cases hget : l[off]? with
  | none => rfl
  | some t => rw [hget] at h; simp at h

/-- C4: for each built-in source (`&str` by `next`, `&[T]` and `&[T; N]`
by `next`/`next_ref`) and every offset reachable from `start()`, the
returned offset is at least the input offset, and when no token is
returned the offset comes back unchanged and a repeated call at that
offset again returns the same offset with no token. -/
theorem c4_offset_monotonicity :
    (∀ (s : List Char) (off : Nat), StrReachable s off →
      off ≤ (strNext s off).1 ∧
      ((strNext s off).2 = none →
        (strNext s off).1 = off ∧
        strNext s (strNext s off).1 = ((strNext s off).1, none))) ∧
    (∀ (T : Type) (l : List T) (off : Nat), SliceReachable l off →
      off ≤ (sliceNext l off).1 ∧
      ((sliceNext l off).2 = none →
        (sliceNext l off).1 = off ∧
        sliceNext l (sliceNext l off).1 = ((sliceNext l off).1, none))) := by
  constructor
  · intro s off _
    refine ⟨strNext_ge s off, fun h => ⟨strNext_none_eq s off h, ?_⟩⟩
    rw [strNext_none_eq s off h]
    exact strNext_none s off h
  · intro T l off _
    constructor
    · unfold sliceNext
      cases l[off]? <;> simp
    · intro h
      have h1 : sliceNext l off = (off, none) := sliceNext_none l off h
      rw [h1]
      exact ⟨rfl, h1⟩

/-- Witness for C4 at the source `"ab"` and the reachable end-of-input
offset `2`. -/
theorem c4_offset_monotonicity_witness :
    2 ≤ (strNext ['a', 'b'] 2).1 ∧ (strNext ['a', 'b'] 2).1 = 2 := by
  have h1 := StrReachable.step (s := ['a', 'b']) StrReachable.start
  rw [show (strNext ['a', 'b'] 0).1 = 1 by decide] at h1
  have h2 := StrReachable.step h1
  rw [show (strNext ['a', 'b'] 1).1 = 2 by decide] at h2
  have hm := c4_offset_monotonicity.1 ['a', 'b'] 2 h2
  exact ⟨hm.1, (hm.2 (by decide)).1⟩

/-- C7: for text sources and reachable offsets `o1 ≤ o2`, the substring
covered by `span(o1..o2)` equals `slice(o1..o2)`. -/
theorem c7_span_slice_round_trip :
    ∀ (s : List Char) (o1 o2 : Nat), StrReachable s o1 → StrReachable s o2 →
      o1 ≤ o2 → coveredSub s (strSpan o1 o2) = strSlice s o1 o2 := by
  intro s o1 o2 _ _ _
  rfl

/-- Witness for C7 on the source `"ab"` with offsets `0 ≤ 0`. -/
theorem c7_span_slice_round_trip_witness :
    coveredSub ['a', 'b'] (strSpan 0 0) = strSlice ['a', 'b'] 0 0 :=
  c7_span_slice_round_trip ['a', 'b'] 0 0 StrReachable.start StrReachable.start
    (Nat.le_refl 0)

/-- C8: the concrete scenario on the text source `"ab"`: `start()` is 0,
`next` yields `'a'` then `'b'` then nothing while the offset goes 1, 2,
2, the span of `0..2` covers the whole string, and `prev(2)` is 1. -/
theorem c8_concrete_ab :
    (strInputModel ['a', 'b']).start = 0 ∧
    strNext ['a', 'b'] 0 = (1, some 'a') ∧
    strNext ['a', 'b'] 1 = (2, some 'b') ∧
    strNext ['a', 'b'] 2 = (2, none) ∧
    strSpan 0 2 = ⟨0, 2⟩ ∧
    coveredSub ['a', 'b'] (strSpan 0 2) = ['a', 'b'] ∧
    strPrev 2 = 1 := by
  decide

/-- C9: merging an absent alt candidate is the identity on the whole
cursor, whether or not an alt error is already present. -/
theorem c9_add_alt_none_identity :
    ∀ (Off Tok E St Ctx : Type) (mrg : E → E → E)
      (st : InputRef Off Tok E St Ctx),
      st.add_alt mrg none = st := by
  intro Off Tok E St Ctx mrg st
  obtain ⟨input, offset, ⟨alt, secondary⟩, state, ctx⟩ := st
  cases alt <;> rfl

/-- C6: with the alt slot empty and candidate `A` at strictly greater
progress than `B`, adding `A` then `B` retains the same alt error as
adding `B` then `A`. -/
theorem c6_add_alt_priority_comm :
    ∀ (Off Tok E St Ctx : Type) (mrg : E → E → E)
      (st : InputRef Off Tok E St Ctx) (A B : Located E),
      st.errors.alt = none → B.pos < A.pos →
      ((st.add_alt mrg (some A)).add_alt mrg (some B)).errors.alt =
        ((st.add_alt mrg (some B)).add_alt mrg (some A)).errors.alt := by
  intro Off Tok E St Ctx mrg st A B halt hBA
  have h1 : ¬ A.pos < B.pos := by omega
  simp [InputRef.add_alt, halt, Located.prioritize, h1, hBA]

/-- Witness for C6 with candidates at offsets 5 and 3 over a concrete
cursor. -/
theorem c6_add_alt_priority_comm_witness :
    (InputRef.add_alt (fun a _ => a)
        (InputRef.add_alt (fun a _ => a)
          ({ input := strInputModel ['a'], offset := 0, errors := ⟨none, []⟩,
             state := 0, ctx := some 0 } : InputRef Nat Char Nat Nat Nat)
          (some ⟨5, 0⟩))
        (some ⟨3, 1⟩)).errors.alt =
      (InputRef.add_alt (fun a _ => a)
        (InputRef.add_alt (fun a _ => a)
          ({ input := strInputModel ['a'], offset := 0, errors := ⟨none, []⟩,
             state := 0, ctx := some 0 } : InputRef Nat Char Nat Nat Nat)
          (some ⟨3, 1⟩))
        (some ⟨5, 0⟩)).errors.alt :=
  c6_add_alt_priority_comm Nat Char Nat Nat Nat (fun a _ => a)
    { input := strInputModel ['a'], offset := 0, errors := ⟨none, []⟩,
      state := 0, ctx := some 0 }
    ⟨5, 0⟩ ⟨3, 1⟩ rfl (by decide)

/-- C2 counterexample: the nested cursor created by `with_ctx` does not
start with a fresh (empty) error accumulator — on a concrete parent
whose secondary list is `[7]`, a body that reports the secondary list it
is handed observes `[7]`, not `[]`; the accumulator is the parent's,
moved in. -/
theorem c2_with_ctx_counterexample :
    (InputRef.with_ctx
        ({ input := strInputModel ['a'], offset := 0, errors := ⟨none, [7]⟩,
           state := 0, ctx := some 1 } : InputRef Nat Char Nat Nat Nat)
        (2 : Nat)
        (fun st => (st, st.errors.secondary))).2 = [7] ∧
      ¬ (InputRef.with_ctx
        ({ input := strInputModel ['a'], offset := 0, errors := ⟨none, [7]⟩,
           state := 0, ctx := some 1 } : InputRef Nat Char Nat Nat Nat)
        (2 : Nat)
        (fun st => (st, st.errors.secondary))).2 = ([] : List Nat) := by
  constructor
  · rfl
  · intro h
    simp [InputRef.with_ctx] at h

/-- C2 as amended: `with_ctx` runs the body against a nested cursor that
shares the parent's source and long-lived state, carries the new
context value, and takes over the parent's error accumulator (rather
than starting with an empty one); when the body returns, the nested
cursor's final offset, error accumulator and state are installed in the
parent, and the parent's own context value is the same after the call
as before it. -/
theorem c2_with_ctx_amended :
    ∀ (Off Tok E St Ctx C O : Type) (st : InputRef Off Tok E St Ctx)
      (new_ctx : C)
      (f : InputRef Off Tok E St C → InputRef Off Tok E St C × O),
      (st.with_ctx new_ctx f).1.ctx = st.ctx ∧
      (st.with_ctx new_ctx f).1.input = st.input ∧
      (st.with_ctx new_ctx f).1.offset =
        (f { input := st.input, offset := st.offset, state := st.state,
             ctx := some new_ctx, errors := st.errors }).1.offset ∧
      (st.with_ctx new_ctx f).1.errors =
        (f { input := st.input, offset := st.offset, state := st.state,
             ctx := some new_ctx, errors := st.errors }).1.errors ∧
      (st.with_ctx new_ctx f).1.state =
        (f { input := st.input, offset := st.offset, state := st.state,
             ctx := some new_ctx, errors := st.errors }).1.state ∧
      (st.with_ctx new_ctx f).2 =
        (f { input := st.input, offset := st.offset, state := st.state,
             ctx := some new_ctx, errors := st.errors }).2 := by
  intro Off Tok E St Ctx C O st new_ctx f
  exact ⟨rfl, rfl, rfl, rfl, rfl, rfl⟩

/-- C3: `with_input` runs the body against a nested cursor over the new
source starting at that source's `start()`, handing it the parent's
context (the parent's own slot is empty for the duration, a state
nothing can observe while the parent is mutably borrowed); afterwards,
for any body that leaves the cursor's context field alone (every cursor
operation short of the scoped calls does), the parent's context is
restored, the error accumulator comes back from the body carrying the
parent's previously accumulated errors, and the parent's offset and
source are unchanged. -/
theorem c3_with_input_frame :
    ∀ (Off Tok E St Ctx O : Type) (st : InputRef Off Tok E St Ctx)
      (new_input : InputModel Off Tok)
      (f : InputRef Off Tok E St Ctx → InputRef Off Tok E St Ctx × O),
      (∀ x, (f x).1.ctx = x.ctx) →
      (st.with_input new_input f).1.offset = st.offset ∧
      (st.with_input new_input f).1.input = st.input ∧
      (st.with_input new_input f).1.ctx = st.ctx ∧
      (st.with_input new_input f).1.errors =
        (f { input := new_input, offset := new_input.start, state := st.state,
             ctx := st.ctx, errors := st.errors }).1.errors ∧
      (st.with_input new_input f).2 =
        (f { input := new_input, offset := new_input.start, state := st.state,
             ctx := st.ctx, errors := st.errors }).2 := by
  intro Off Tok E St Ctx O st new_input f hctx
  refine ⟨rfl, rfl, ?_, rfl, rfl⟩
  exact hctx _

/-- Witness for C3: a concrete parent at offset 1 with context `some 4`
scoped over a fresh slice source, with the identity body. -/
theorem c3_with_input_frame_witness :
    (InputRef.with_input
        ({ input := sliceInputModel [true, false], offset := 1,
           errors := ⟨none, [9]⟩, state := 0,
           ctx := some 4 } : InputRef Nat Bool Nat Nat Nat)
        (sliceInputModel [false])
        (fun x => (x, 0))).1.offset = 1 ∧
      (InputRef.with_input
        ({ input := sliceInputModel [true, false], offset := 1,
           errors := ⟨none, [9]⟩, state := 0,
           ctx := some 4 } : InputRef Nat Bool Nat Nat Nat)
        (sliceInputModel [false])
        (fun x => (x, 0))).1.ctx = some 4 := by
  have h := c3_with_input_frame Nat Bool Nat Nat Nat Nat
    ({ input := sliceInputModel [true, false], offset := 1,
       errors := ⟨none, [9]⟩, state := 0,
       ctx := some 4 } : InputRef Nat Bool Nat Nat Nat)
    (sliceInputModel [false])
    (fun x => (x, 0))
    (fun x => rfl)
  exact ⟨h.1, h.2.2.1⟩

/-- C5: over an inner source of (token, span) pairs, `SpannedInput`'s
`next` strips the span and yields only the raw token, and its `span`
agrees with the specification's description of the edge lookups and the
end-of-input fallback. -/
theorem c5_spanned_next_and_span :
    ∀ (T S Ctx Off : Type) (ops : SpanOps S Ctx Off)
      (si : SpannedInput T S Off) (off a b : Off),
      si.next off = ((si.input.next off).1, (si.input.next off).2.map Prod.fst) ∧
      si.span ops a b = si.spanSpec ops a b := by
  intro T S Ctx Off ops si off a b
  refine ⟨rfl, ?_⟩
  unfold SpannedInput.span SpannedInput.spanSpec
  cases h1 : (si.input.next a).2 <;>
    cases h2 : (si.input.next (si.input.prev b)).2 <;>
      simp [h1, h2]

/-- Invariant behind rewind exactness: as long as every marker rewound
to inside the operation sequence records at least `n` secondary errors,
running the sequence keeps the secondary list at least `n` long and
leaves its first `n` entries untouched. -/
theorem runOp_secondary_prefix :
    ∀ (Off Tok E St Ctx : Type) (mrg : E → E → E) (n : Nat)
      (O : Op Off Tok E Ctx) (st : InputRef Off Tok E St Ctx),
      markersOK n O → n ≤ st.errors.secondary.length →
      n ≤ (runOp mrg O st).errors.secondary.length ∧
      (runOp mrg O st).errors.secondary.take n =
        st.errors.secondary.take n := by
  intro Off Tok E St Ctx mrg n O
  induction O with
  | nop => intro st _ hn; exact ⟨hn, rfl⟩
  | seq a b iha ihb =>
    intro st hOK hn
    obtain ⟨ha, hb⟩ := hOK
    have r1 := iha st ha hn
    have r2 := ihb (runOp mrg a st) hb r1.1
    exact ⟨r2.1, r2.2.trans r1.2⟩
  | advance => intro st _ hn; exact ⟨hn, rfl⟩
  | emit e =>
    intro st _ hn
    constructor
    · show n ≤ (st.errors.secondary ++ [e]).length
      simp
      omega
    · show (st.errors.secondary ++ [e]).take n = st.errors.secondary.take n
      rw [List.take_append_of_le_length hn]
  | addAlt c => intro st _ hn; exact ⟨hn, rfl⟩
  | rewind m =>
    intro st hOK hn
    have hOK' : n ≤ m.err_count := hOK
    constructor
    · show n ≤ (st.errors.secondary.take m.err_count).length
      simp
      omega
    · show (st.errors.secondary.take m.err_count).take n =
        st.errors.secondary.take n
      rw [List.take_take]
      congr 1
      omega
  | scopedCtx c body ih =>
    intro st hOK hn
    exact ih { input := st.input, offset := st.offset, state := st.state,
               ctx := some c, errors := st.errors } hOK hn

/-- C1: saving a marker, running any sequence of cursor operations that
does not call `with_input` and only rewinds to markers obtainable after
the save (their recorded count is at least the count at the save), and
then rewinding to the saved marker restores the offset and the
secondary-error list exactly, discarding the errors emitted in between,
while the rewind itself leaves the alt slot exactly as the sequence
left it. -/
theorem c1_rewind_exactness :
    ∀ (Off Tok E St Ctx : Type) (mrg : E → E → E)
      (st : InputRef Off Tok E St Ctx) (O : Op Off Tok E Ctx),
      markersOK st.errors.secondary.length O →
      ((runOp mrg O st).rewind st.save).offset = st.offset ∧
      ((runOp mrg O st).rewind st.save).errors.secondary =
        st.errors.secondary ∧
      ((runOp mrg O st).rewind st.save).errors.alt =
        (runOp mrg O st).errors.alt := by
  intro Off Tok E St Ctx mrg st O hOK
  have h := runOp_secondary_prefix Off Tok E St Ctx mrg
    st.errors.secondary.length O st hOK (Nat.le_refl _)
  refine ⟨rfl, ?_, rfl⟩
  show (runOp mrg O st).errors.secondary.take st.errors.secondary.length =
    st.errors.secondary
  rw [h.2, List.take_length]

/-- Witness for C1: a concrete cursor holding one secondary error, with
a sequence that emits, advances, and rewinds to a marker taken after
the save. -/
theorem c1_rewind_exactness_witness :
    ((runOp (fun a _ => a)
        (Op.seq (Op.emit 9) (Op.seq Op.advance (Op.rewind ⟨0, 1⟩)))
        ({ input := strInputModel ['a', 'b'], offset := 0,
           errors := ⟨none, [5]⟩, state := 0,
           ctx := some 0 } : InputRef Nat Char Nat Nat Nat)).rewind
      (InputRef.save
        ({ input := strInputModel ['a', 'b'], offset := 0,
           errors := ⟨none, [5]⟩, state := 0,
           ctx := some 0 } : InputRef Nat Char Nat Nat Nat))).offset = 0 ∧
    ((runOp (fun a _ => a)
        (Op.seq (Op.emit 9) (Op.seq Op.advance (Op.rewind ⟨0, 1⟩)))
        ({ input := strInputModel ['a', 'b'], offset := 0,
           errors := ⟨none, [5]⟩, state := 0,
           ctx := some 0 } : InputRef Nat Char Nat Nat Nat)).rewind
      (InputRef.save
        ({ input := strInputModel ['a', 'b'], offset := 0,
           errors := ⟨none, [5]⟩, state := 0,
           ctx := some 0 } : InputRef Nat Char Nat Nat Nat))).errors.secondary =
      [5] ∧
    ((runOp (fun a _ => a)
        (Op.seq (Op.emit 9) (Op.seq Op.advance (Op.rewind ⟨0, 1⟩)))
        ({ input := strInputModel ['a', 'b'], offset := 0,
           errors := ⟨none, [5]⟩, state := 0,
           ctx := some 0 } : InputRef Nat Char Nat Nat Nat)).rewind
      (InputRef.save
        ({ input := strInputModel ['a', 'b'], offset := 0,
           errors := ⟨none, [5]⟩, state := 0,
           ctx := some 0 } : InputRef Nat Char Nat Nat Nat))).errors.alt =
      (runOp (fun a _ => a)
        (Op.seq (Op.emit 9) (Op.seq Op.advance (Op.rewind ⟨0, 1⟩)))
        ({ input := strInputModel ['a', 'b'], offset := 0,
           errors := ⟨none, [5]⟩, state := 0,
           ctx := some 0 } : InputRef Nat Char Nat Nat Nat)).errors.alt :=
  c1_rewind_exactness Nat Char Nat Nat Nat (fun a _ => a)
    ({ input := strInputModel ['a', 'b'], offset := 0,
       errors := ⟨none, [5]⟩, state := 0,
       ctx := some 0 } : InputRef Nat Char Nat Nat Nat)
    (Op.seq (Op.emit 9) (Op.seq Op.advance (Op.rewind ⟨0, 1⟩)))
    ⟨trivial, trivial, Nat.le_refl 1⟩

/-- The `skip_while` loop on a `&str` source stops at an offset reached
from the start by consuming only predicate-satisfying tokens, and at
the stopping offset the next token (when there is one) fails the
predicate. -/
theorem strSkipWhile_spec (s : List Char) (p : Char → Bool) :
    ∀ (off : Nat),
      StrSkipReach s p off (strSkipWhile s p off) ∧
      (∀ c, (strNext s (strSkipWhile s p off)).2 = some c → p c = false) := by
  intro off
  induction off using strSkipWhile.induct (s := s) (p := p) with
  | case1 x off' c h hp ih =>
    have hrw : strSkipWhile s p x = strSkipWhile s p off' := by
      rw [strSkipWhile, h]
      simp [hp]
    rw [hrw]
    constructor
    · refine StrSkipReach.step (c := c) (by rw [h]) hp ?_
      rw [h]
      exact ih.1
    · exact ih.2
  | case2 x off' c h hp =>
    have hrw : strSkipWhile s p x = x := by
      rw [strSkipWhile, h]
      simp [hp]
    rw [hrw]
    constructor
    · exact StrSkipReach.refl
    · intro d hd
      rw [h] at hd
      simp at hd
      subst hd
      simpa using hp
  | case3 x fst h =>
    have hrw : strSkipWhile s p x = x := by
      rw [strSkipWhile, h]
    rw [hrw]
    constructor
    · exact StrSkipReach.refl
    · intro d hd
      rw [h] at hd
      simp at hd

/-- The `skip_while` loop on a `&[T]`/`&[T; N]` source stops at an
offset reached from the start by consuming only predicate-satisfying
tokens, and at the stopping offset the next token (when there is one)
fails the predicate. -/
theorem sliceSkipWhile_spec (l : List T) (p : T → Bool) :
    ∀ (off : Nat),
      SliceSkipReach l p off (sliceSkipWhile l p off) ∧
      (∀ t, (sliceNext l (sliceSkipWhile l p off)).2 = some t →
        p t = false) := by
  intro off
  induction off using sliceSkipWhile.induct (l := l) (p := p) with
  | case1 x off' t h hp ih =>
    have hrw : sliceSkipWhile l p x = sliceSkipWhile l p off' := by
      rw [sliceSkipWhile, h]
      simp [hp]
    rw [hrw]
    constructor
    · refine SliceSkipReach.step (t := t) (by rw [h]) hp ?_
      rw [h]
      exact ih.1
    · exact ih.2
  | case2 x off' t h hp =>
    have hrw : sliceSkipWhile l p x = x := by
      rw [sliceSkipWhile, h]
      simp [hp]
    rw [hrw]
    constructor
    · exact SliceSkipReach.refl
    · intro d hd
      rw [h] at hd
      simp at hd
      subst hd
      simpa using hp
  | case3 x fst h =>
    have hrw : sliceSkipWhile l p x = x := by
      rw [sliceSkipWhile, h]
    rw [hrw]
    constructor
    · exact SliceSkipReach.refl
    · intro d hd
      rw [h] at hd
      simp at hd

/-- C10: for the built-in sources (`&str`, `&[T]`, `&[T; N]`) and every
predicate, `skip_while` terminates (its loop is the total function
`strSkipWhile`/`sliceSkipWhile`, whose well-founded recursion is
grounded in `next` strictly increasing the offset or returning no
token); on return the cursor's offset is reached from the previous one
by consuming only predicate-satisfying tokens and sits at the first
token failing the predicate or at end of input, while the error
accumulator, context, user state and source are unchanged. -/
theorem c10_skip_while_first_failure :
    (∀ (E St Ctx : Type) (s : List Char) (p : Char → Bool)
       (st : InputRef Nat Char E St Ctx),
      (InputRef.skip_while_str s p st).errors = st.errors ∧
      (InputRef.skip_while_str s p st).ctx = st.ctx ∧
      (InputRef.skip_while_str s p st).state = st.state ∧
      (InputRef.skip_while_str s p st).input = st.input ∧
      StrSkipReach s p st.offset (InputRef.skip_while_str s p st).offset ∧
      (∀ c, (strNext s (InputRef.skip_while_str s p st).offset).2 = some c →
        p c = false)) ∧
    (∀ (T E St Ctx : Type) (l : List T) (p : T → Bool)
       (st : InputRef Nat T E St Ctx),
      (InputRef.skip_while_slice l p st).errors = st.errors ∧
      (InputRef.skip_while_slice l p st).ctx = st.ctx ∧
      (InputRef.skip_while_slice l p st).state = st.state ∧
      (InputRef.skip_while_slice l p st).input = st.input ∧
      SliceSkipReach l p st.offset (InputRef.skip_while_slice l p st).offset ∧
      (∀ t, (sliceNext l (InputRef.skip_while_slice l p st).offset).2 = some t →
        p t = false)) := by
  constructor
  · intro E St Ctx s p st
    have h := strSkipWhile_spec s p st.offset
    exact ⟨rfl, rfl, rfl, rfl, h.1, h.2⟩
  · intro T E St Ctx l p st
    have h := sliceSkipWhile_spec l p st.offset
    exact ⟨rfl, rfl, rfl, rfl, h.1, h.2⟩

/-- Witness for C10 on the slice source `[3, 4]` with an
always-failing predicate, whose loop stops immediately at offset 0
where the token `3` indeed fails the predicate. -/
theorem c10_skip_while_first_failure_witness :
    (sliceNext [3, 4]
        (InputRef.skip_while_slice [3, 4] (fun _ => false)
          ({ input := sliceInputModel [3, 4], offset := 0,
             errors := ⟨none, []⟩, state := 0,
             ctx := some 0 } : InputRef Nat Nat Nat Nat Nat)).offset).2 =
      some 3 ∧
    (fun _ : Nat => false) 3 = false := by
  have hoff : (InputRef.skip_while_slice [3, 4] (fun _ => false)
      ({ input := sliceInputModel [3, 4], offset := 0,
         errors := ⟨none, []⟩, state := 0,
         ctx := some 0 } : InputRef Nat Nat Nat Nat Nat)).offset = 0 := by
    show sliceSkipWhile [3, 4] (fun _ => false) 0 = 0
    rw [sliceSkipWhile]
    simp [sliceNext]
    split <;> rfl
  refine ⟨by rw [hoff]; decide, ?_⟩
  exact (c10_skip_while_first_failure.2 Nat Nat Nat Nat [3, 4] (fun _ => false)
    ({ input := sliceInputModel [3, 4], offset := 0,
       errors := ⟨none, []⟩, state := 0,
       ctx := some 0 } : InputRef Nat Nat Nat Nat Nat)).2.2.2.2.2 3
    (by rw [hoff]; decide)

end Chumsky
